import Mathlib

/-!
# Verification of the mk4 MKV→MP4 conversion pipeline

Shallow embedding of the subtitle-transformation and encode-orchestration
logic of the mk4 repository (`lib/subtitles.py`, `lib/gui/subtitles.py`,
`lib/conversion.py`, `lib/gui/conversion.py`, `lib/utils.py`, `utils.py`),
together with theorems settling the frozen claims about it.

Text is modelled as `List Char` (Python `str` read in text mode, so line
separators are a single `'\n'`).
-/

namespace MK4

/-! ## Python string primitives -/

/-- Python `str.strip()` whitespace set (ASCII part, which is what the
subtitle pipeline encounters): space, tab, newline, carriage return,
vertical tab, form feed. -/
def isPySpace (c : Char) : Bool :=
  c = ' ' || c = '\t' || c = '\n' || c = '\r' || c = '\x0b' || c = '\x0c'

/-- ASCII decimal digit, the relevant case of Python `str.isdigit()`. -/
def isAsciiDigit (c : Char) : Bool :=
  '0' ≤ c && c ≤ '9'

/-- Python `str.strip()`: remove leading and trailing whitespace. -/
def pyStrip (l : List Char) : List Char :=
  ((l.dropWhile isPySpace).reverse.dropWhile isPySpace).reverse

/-- Python `s.strip() != ""`: the line has some non-whitespace character.
Its negation is the blank-line test used by `beautify_srt_gui`. -/
def isBlankLine (l : List Char) : Bool :=
  pyStrip l = ([] : List Char)

/-- Python `s.strip().isdigit()`: the cue-number test of `beautify_srt`
and `beautify_srt_gui` (line 83 / line 267). -/
def isDigitLine (l : List Char) : Bool :=
  let s := pyStrip l
  !s.isEmpty && s.all isAsciiDigit

/-! ## `readlines`: split text into lines, keeping the `'\n'` terminators -/

/-- Accumulator worker for `readlines`; `acc` holds the current line
reversed. -/
def readlinesAux (acc : List Char) : List Char → List (List Char)
  | [] => if acc.isEmpty then [] else [acc.reverse]
  | c :: rest =>
    if c = '\n' then (acc.reverse ++ ['\n']) :: readlinesAux [] rest
    else readlinesAux (c :: acc) rest

/-- Python `f.readlines()` on text whose only line separator is `'\n'`:
each line keeps its trailing newline; a final fragment without a newline
forms the last line. -/
def readlines (text : List Char) : List (List Char) :=
  readlinesAux [] text

/-! ## `remove_font_balise`: `re.sub(r"<font.*?>|</font>", "", text)`

`lib/subtitles.py` lines 110–126 and `lib/gui/subtitles.py` lines 184–218
both substitute the pattern `<font.*?>|</font>` by the empty string.
`re.sub` scans left to right; at each position the first alternative
`<font.*?>` is tried first: literal `<font`, then a lazy run of
non-newline characters, then `>` — i.e. it consumes up to the *first*
`>` after `<font`, failing if a newline intervenes.  Otherwise the
literal `</font>` is tried.  On a match the matched text is dropped and
scanning resumes after it; otherwise the character is kept. -/

/-- Lazy tail of `<font.*?>`: scan for the first `'>'`, failing on a
newline or end of input; returns the suffix after the `'>'`. -/
def scanToGt : List Char → Option (List Char)
  | [] => none
  | c :: rest => if c = '>' then some rest
                 else if c = '\n' then none
                 else scanToGt rest

/-- The literal `<font` opening the first alternative. -/
def fontOpenLit : List Char := ['<', 'f', 'o', 'n', 't']

/-- The literal `</font>` of the second alternative. -/
def fontCloseLit : List Char := ['<', '/', 'f', 'o', 'n', 't', '>']

/-- Match the alternative `<font.*?>` at the head of `l`, returning the
suffix after the match. -/
def matchOpenFont (l : List Char) : Option (List Char) :=
  if fontOpenLit.isPrefixOf l then scanToGt (l.drop 5) else none

/-- Match the alternative `</font>` at the head of `l`, returning the
suffix after the match. -/
def matchCloseFont (l : List Char) : Option (List Char) :=
  if fontCloseLit.isPrefixOf l then some (l.drop 7) else none

/-- Fuelled scanner for the substitution; fuel bounds the number of
consumed characters, so `l.length` is always enough. -/
def rfbGo : Nat → List Char → List Char
  | 0, l => l
  | _ + 1, [] => []
  | fuel + 1, l@(c :: rest) =>
    match matchOpenFont l with
    | some r => rfbGo fuel r
    | none =>
      match matchCloseFont l with
      | some r => rfbGo fuel r
      | none => c :: rfbGo fuel rest

/-- `remove_font_balise` (= `remove_font_balise_gui` on the text level):
delete every left-to-right non-overlapping match of
`<font.*?>|</font>`. -/
def remove_font_balise (text : List Char) : List Char :=
  rfbGo text.length text

/-- Decidable test: some position of `l` begins a match of the pattern. -/
def hasFontTag : List Char → Bool
  | [] => false
  | l@(_ :: rest) =>
    (matchOpenFont l).isSome || (matchCloseFont l).isSome || hasFontTag rest

/-! ## `beautify_srt_gui` (lib/gui/subtitles.py lines 220–307)

The scanner walks the line list: a line passing the cue-number test emits
itself, then (if present) the following time-range line, then collects
the following non-blank lines as the dialogue block and emits it wrapped
as `<font size="S" face="N">dialog</font>\n\n`; any other line is emitted
verbatim. -/

/-- The opening wrapper `<font size="S" face="N">` built from the
configured size and name (line 283–286). -/
def fontPre (size name : List Char) : List Char :=
  "<font size=\"".data ++ size ++ "\" face=\"".data ++ name ++ "\">".data

/-- The wrapped dialogue block of `beautify_srt_gui`:
`<font size=… face=…>` ++ dialog ++ `</font>\n\n`. -/
def wrapGui (size name dialog : List Char) : List Char :=
  fontPre size name ++ dialog ++ "</font>\n\n".data

/-- The attribute part of the opening wrapper, i.e. `fontPre size name`
without the leading `<font` and the closing `>`. -/
def fontAttrs (size name : List Char) : List Char :=
  " size=\"".data ++ size ++ "\" face=\"".data ++ name ++ ['\"']

/-- Fuelled line scanner of `beautify_srt_gui`; the fuel bounds the
number of consumed lines, so the line count is always enough. -/
def bglGo (size name : List Char) : Nat → List (List Char) → List (List Char)
  | 0, _ => []
  | _ + 1, [] => []
  | fuel + 1, l :: rest =>
    if isDigitLine l then
      match rest with
      | [] => [l, wrapGui size name []]
      | ts :: rest2 =>
        let dialog := rest2.takeWhile (fun x => !isBlankLine x)
        let rest3 := rest2.dropWhile (fun x => !isBlankLine x)
        l :: ts :: wrapGui size name dialog.flatten :: bglGo size name fuel rest3
    else
      l :: bglGo size name fuel rest

/-- Line scanner of `beautify_srt_gui` (lines 265–294). -/
def beautifyGuiLines (size name : List Char) (ls : List (List Char)) : List (List Char) :=
  bglGo size name ls.length ls

/-- `beautify_srt_gui` on the text content of the subtitle file. -/
def beautify_srt_gui (size name : List Char) (text : List Char) : List Char :=
  (beautifyGuiLines size name (readlines text)).flatten

/-! ## `beautify_srt` (lib/subtitles.py lines 72–107, CLI version)

Differences from the GUI version: the time-range line is read without a
bounds check (`lines[line_num + 1]` raises `IndexError`, caught by the
surrounding handler — modelled as `none`); the dialogue block ends at a
line equal to exactly `"\n"`; the wrapped block and the `"\n\n"`
separator are appended as two items; and a line failing the cue-number
test is *dropped* (`line_num += 1` with no append). -/

/-- The wrapped dialogue block of `beautify_srt` (no trailing newlines;
the separator is a separate item). -/
def wrapCli (size name dialog : List Char) : List Char :=
  fontPre size name ++ dialog ++ "</font>".data

/-- Fuelled line scanner of `beautify_srt`; `none` models the
`IndexError` path (cue-number line with no following line). -/
def bclGo (size name : List Char) : Nat → List (List Char) → Option (List (List Char))
  | 0, _ => some []
  | _ + 1, [] => some []
  | fuel + 1, l :: rest =>
    if isDigitLine l then
      match rest with
      | [] => none
      | ts :: rest2 =>
        let dialog := rest2.takeWhile (fun x => x ≠ ['\n'])
        let rest3 := rest2.dropWhile (fun x => x ≠ ['\n'])
        (bclGo size name fuel rest3).map
          (fun out => l :: ts :: wrapCli size name dialog.flatten :: "\n\n".data :: out)
    else
      bclGo size name fuel rest

/-- Line scanner of `beautify_srt` (lines 81–97). -/
def beautifyCliLines (size name : List Char) (ls : List (List Char)) :
    Option (List (List Char)) :=
  bclGo size name ls.length ls

/-- `beautify_srt` on the text content of the subtitle file; `none`
models the exception path. -/
def beautify_srt (size name : List Char) (text : List Char) : Option (List Char) :=
  (beautifyCliLines size name (readlines text)).map List.flatten

/-! ## Well-formed cue documents and the shape of the reformat output -/

/-- A complete opening font tag: `<font` ++ attrs ++ `>`. -/
def openTag (attrs : List Char) : List Char :=
  fontOpenLit ++ attrs ++ ['>']

/-- A single line as produced by `readlines`: ends with the one and only
newline it contains. -/
def lineWFb (l : List Char) : Bool :=
  (l.getLast? == some '\n') && l.dropLast.all (fun c => c ≠ '\n')

/-- One well-formed cue of the subtitle grammar: a pure-integer number
line, a time-range line, and a non-empty block of non-blank dialogue
lines. -/
structure Cue where
  numLine : List Char
  tsLine : List Char
  dialog : List (List Char)

/-- Well-formedness of a cue, phrased over the line predicates the
scanners test. -/
def cueWFb (c : Cue) : Bool :=
  isDigitLine c.numLine && lineWFb c.numLine &&
  !isDigitLine c.tsLine && lineWFb c.tsLine &&
  !c.dialog.isEmpty && c.dialog.all (fun d => lineWFb d && !isBlankLine d)

/-- The lines of a cue followed by its blank separator line. -/
def cueLinesSep (c : Cue) : List (List Char) :=
  c.numLine :: c.tsLine :: c.dialog ++ [['\n']]

/-- The lines of a cue ending at end of input (no separator). -/
def cueLinesEnd (c : Cue) : List (List Char) :=
  c.numLine :: c.tsLine :: c.dialog

/-- The line sequence of a well-formed document: blank-separated cues,
optionally followed by one final cue that ends at end of input. -/
def renderDocLines (cues : List Cue) (tailCue : Option Cue) : List (List Char) :=
  (cues.map cueLinesSep).flatten ++
    (match tailCue with
     | none => []
     | some c => cueLinesEnd c)

/-- The text of a well-formed document. -/
def renderDoc (cues : List Cue) (tailCue : Option Cue) : List Char :=
  (renderDocLines cues tailCue).flatten

/-- Output lines of `beautify_srt_gui` for one blank-separated cue: the
number line and the time-range line verbatim, the dialogue block wrapped
in one font tag, and the separator line passed through. -/
def guiCueOutSep (size name : List Char) (c : Cue) : List (List Char) :=
  [c.numLine, c.tsLine, wrapGui size name c.dialog.flatten, ['\n']]

/-- Output lines for the final cue of a document ending without a blank
separator. -/
def guiCueOutEnd (size name : List Char) (c : Cue) : List (List Char) :=
  [c.numLine, c.tsLine, wrapGui size name c.dialog.flatten]

/-- Output line sequence of `beautify_srt_gui` on a well-formed
document. -/
def guiOutLines (size name : List Char) (cues : List Cue) (tailCue : Option Cue) :
    List (List Char) :=
  (cues.map (guiCueOutSep size name)).flatten ++
    (match tailCue with
     | none => []
     | some c => guiCueOutEnd size name c)

/-- Output lines of `beautify_srt` (CLI) for one cue: number and
time-range lines verbatim, wrapped dialogue, and the emitted `"\n\n"`
separator; the original blank separator line is dropped by the CLI
scanner, so blank-separated and end-of-input cues produce the same
output. -/
def cliCueOut (size name : List Char) (c : Cue) : List (List Char) :=
  [c.numLine, c.tsLine, wrapCli size name c.dialog.flatten, "\n\n".data]

/-- Output line sequence of `beautify_srt` on a well-formed document. -/
def cliOutLines (size name : List Char) (cues : List Cue) (tailCue : Option Cue) :
    List (List Char) :=
  (cues.map (cliCueOut size name)).flatten ++
    (match tailCue with
     | none => []
     | some c => cliCueOut size name c)

/-- No character of the list is `'<'` (so no font-tag match can begin
inside it). -/
def noTagStart (l : List Char) : Bool :=
  l.all (fun c => c ≠ '<')

/-- The characters allowed inside the attribute part of an opening tag:
the lazy `.*?>` match then consumes exactly the tag. -/
def attrSafe (l : List Char) : Bool :=
  l.all (fun c => c ≠ '>' && c ≠ '\n')

/-- An input to `remove_font_balise` decomposed into dialogue segments
and complete font tags. -/
inductive Seg where
  | txt (s : List Char)
  | openT (attrs : List Char)
  | closeT
deriving DecidableEq

/-- Segment well-formedness: dialogue contains no `'<'` (so no tag
match can begin inside it), attribute text contains no `'>'` and no
newline (so the lazy match consumes exactly the tag). -/
def segWFb : Seg → Bool
  | .txt s => noTagStart s
  | .openT attrs => attrSafe attrs
  | .closeT => true

/-- The text of one segment. -/
def renderSeg : Seg → List Char
  | .txt s => s
  | .openT attrs => openTag attrs
  | .closeT => fontCloseLit

/-- The text of a segment sequence. -/
def renderSegs (segs : List Seg) : List Char :=
  (segs.map renderSeg).flatten

/-- The same text with every font tag dropped and every other character
kept. -/
def plainSegs (segs : List Seg) : List Char :=
  (segs.map (fun s =>
    match s with
    | .txt t => t
    | _ => [])).flatten

/-- Modelled from the amended claim for the strip–reformat composite:
the `beautify_srt_gui` scanner with the font wrapper replaced by
nothing, i.e. only the dialogue regrouping and the inserted two-newline
separator remain.  This is the comparison definition the composite
`strip ∘ reformat ∘ strip` is proven equal to. -/
def bnmGo : Nat → List (List Char) → List (List Char)
  | 0, _ => []
  | _ + 1, [] => []
  | fuel + 1, l :: rest =>
    if isDigitLine l then
      match rest with
      | [] => [l, "\n\n".data]
      | ts :: rest2 =>
        let dialog := rest2.takeWhile (fun x => !isBlankLine x)
        let rest3 := rest2.dropWhile (fun x => !isBlankLine x)
        l :: ts :: (dialog.flatten ++ "\n\n".data) :: bnmGo fuel rest3
    else
      l :: bnmGo fuel rest

/-- Text-level form of the markup-free reformat comparator. -/
def beautify_no_markup (text : List Char) : List Char :=
  (bnmGo (readlines text).length (readlines text)).flatten

/-! ## `convert_file_gui` (lib/gui/conversion.py lines 100–341)

The probing, process spawning and path resolution are operating-system
effects; the embedding takes their results as fields of `ConvertEnv`
(resolved path strings, existence/size of the subtitle file, and the
exit codes of the up-to-three encoder invocations) and models the pure
command construction and control flow over them. -/

structure ConvertEnv where
  /-- `filename` argument as passed in. -/
  filename : String
  /-- `subtitles` argument as passed in. -/
  subtitles : String
  /-- `str(Path(filename).resolve()).replace("\\", "/")` (line 175). -/
  resolvedFilename : String
  /-- `str(Path(subtitles).resolve()).replace("\\", "/")` before the
  colon escaping of line 176. -/
  resolvedSubtitles : String
  /-- `str(output)` (lines 133–137). -/
  output : String
  /-- encoder resolved from config, default `"libx264"` (lines 151–159). -/
  encoder : String
  /-- CRF value resolved from config, default `"23"` (lines 152–164). -/
  crf : String
  /-- `audio_index` argument. -/
  audioIndex : Nat
  /-- `os.path.exists(subtitles)` (line 142). -/
  subtitlesExists : Bool
  /-- `os.path.getsize(subtitles) != 0` (line 146). -/
  subtitlesNonempty : Bool
  /-- exit code of the primary attempt (line 247). -/
  rc1 : Int
  /-- exit code of the alternate-path attempt (line 285). -/
  rc2 : Int
  /-- exit code of the no-subtitles attempt (line 310). -/
  rc3 : Int

/-- `.replace(":", "\\:")` of line 176. -/
def escapeColons (s : String) : String :=
  String.mk (s.data.flatMap (fun c => if c = ':' then ['\\', ':'] else [c]))

/-- Primary command `ffmpeg_cmd` (lines 178–191): subtitle burn-in
filter with the escaped path in single quotes, full stream mapping. -/
def ffmpeg_cmd (e : ConvertEnv) : List String :=
  ["ffmpeg", "-y", "-hide_banner",
   "-i", e.resolvedFilename,
   "-vf", "subtitles=\x27" ++ escapeColons e.resolvedSubtitles ++ "\x27",
   "-pix_fmt", "yuv420p",
   "-map", "0:v:0",
   "-map", "0:a:" ++ toString e.audioIndex,
   "-c:v", e.encoder,
   "-crf", e.crf,
   "-c:a", "aac",
   e.output]

/-- Second-tier command `subtitle_filter_cmd` (lines 265–278): same
filter approach with the raw, unescaped subtitle path. -/
def subtitle_filter_cmd (e : ConvertEnv) : List String :=
  ["ffmpeg", "-y", "-hide_banner",
   "-i", e.filename,
   "-vf", "subtitles=" ++ e.subtitles,
   "-c:v", e.encoder,
   "-pix_fmt", "yuv420p",
   "-crf", e.crf,
   "-c:a", "aac",
   "-map", "0:a:" ++ toString e.audioIndex,
   "-map", "0:v:0",
   e.output]

/-- Third-tier command `no_subs_cmd` (lines 291–303): video and audio
only, no subtitle filter. -/
def no_subs_cmd (e : ConvertEnv) : List String :=
  ["ffmpeg", "-y", "-hide_banner",
   "-i", e.filename,
   "-c:v", e.encoder,
   "-pix_fmt", "yuv420p",
   "-crf", e.crf,
   "-c:a", "aac",
   "-map", "0:a:" ++ toString e.audioIndex,
   "-map", "0:v:0",
   e.output]

/-- Outcome of `convert_file_gui`: the returned boolean together with
whether the temporary subtitle file still exists at the return point.

Branch map to the source: missing subtitle file → `False` (line 144);
empty subtitle file → `False` (line 148); `return_code == 0` → cleanup
then `True` (lines 330–335); else second tier, `returncode == 0` →
cleanup then `True` (lines 322–328); else third tier, `returncode == 0`
→ cleanup then `True` (lines 314–320); all three non-zero → `False`
with no cleanup (lines 310–312). -/
def convert_file_gui (e : ConvertEnv) : Bool × Bool :=
  if e.subtitlesExists = false then (false, false)
  else if e.subtitlesNonempty = false then (false, true)
  else if e.rc1 = 0 then (true, false)
  else if e.rc2 = 0 then (true, false)
  else if e.rc3 = 0 then (true, false)
  else (false, true)

/-- The encoder commands actually executed, in order. -/
def attemptedCommands (e : ConvertEnv) : List (List String) :=
  if e.subtitlesExists = false then []
  else if e.subtitlesNonempty = false then []
  else ffmpeg_cmd e ::
    (if e.rc1 = 0 then []
     else subtitle_filter_cmd e :: (if e.rc2 = 0 then [] else [no_subs_cmd e]))

/-- The quality-parameter flags named by the specification: constant
rate factor, constrained quality (nvenc family), and the fixed
quantization pair (amf family). -/
def qualityFlagList : List String := ["-crf", "-cq", "-qp_p", "-qp_i"]

/-- The quality flags occurring in a built command. -/
def qualityFlagsUsed (cmd : List String) : List String :=
  cmd.filter (fun s => qualityFlagList.contains s)

/-! ## Progress reporting of `convert_file_gui` (lines 207–256)

While the encoder process runs, each stderr line carrying `time=` yields
`progress_callback(min(0.95, current_time / duration))` (lines 222–232);
if more than 2 seconds pass since the last callback, a fallback value
`min(0.95, elapsed / (duration * 2))` is sent instead (lines 234–241),
where `elapsed` is wall-clock time since the monitor started.  After the
process exits the callback receives `1.0` (lines 254–256).  Values are
modelled as exact rationals. -/

/-- One observable monitor-loop event: a parsed progress line (wall
time, parsed media timestamp in seconds), or a 2-second-silence tick. -/
inductive ProgEvent where
  | parsed (wall : ℚ) (t : ℚ)
  | stale (wall : ℚ)
deriving DecidableEq

/-- Fraction sent for a parsed `time=` line (line 229). -/
def parsedFraction (duration t : ℚ) : ℚ := min (19/20) (t / duration)

/-- Fallback fraction synthesized from wall-clock elapsed time
(line 240). -/
def fallbackFraction (duration elapsed : ℚ) : ℚ := min (19/20) (elapsed / (duration * 2))

/-- The fractions passed to the callback during the monitor loop. -/
def loopFractions (duration startTime : ℚ) : List ProgEvent → List ℚ
  | [] => []
  | .parsed _ t :: rest => parsedFraction duration t :: loopFractions duration startTime rest
  | .stale w :: rest => fallbackFraction duration (w - startTime) :: loopFractions duration startTime rest

/-- All fractions passed to the callback from loop entry to return:
the loop values followed by the final `1.0` of line 256. -/
def callbackFractions (duration startTime : ℚ) (evs : List ProgEvent) : List ℚ :=
  loopFractions duration startTime evs ++ [1]

/-- Trace validity: wall-clock times strictly increase, and a fallback
tick fires only when more than 2 seconds passed since
`last_progress_time` (updated by every callback, lines 232 and 237). -/
def validTraceFrom (lastProgress prevWall : ℚ) : List ProgEvent → Bool
  | [] => true
  | .parsed w _ :: rest => decide (prevWall < w) && validTraceFrom w w rest
  | .stale w :: rest =>
      decide (prevWall < w) && decide (2 < w - lastProgress) && validTraceFrom w w rest

/-- Trace validity from the monitor start (`last_progress_time =
start_time`, line 209). -/
def validTrace (startTime : ℚ) (evs : List ProgEvent) : Bool :=
  validTraceFrom startTime startTime evs

/-- The parsed media timestamps of a trace, in order. -/
def parsedTimes : List ProgEvent → List ℚ
  | [] => []
  | .parsed _ t :: rest => t :: parsedTimes rest
  | .stale _ :: rest => parsedTimes rest

/-! ## `process_file_gui` (lib/gui/conversion.py lines 343–471)

The pipeline runs extract → strip → reformat → convert; each external
stage may succeed, fail (return `False`), or be hit by a
`KeyboardInterrupt` that propagates to the handler of lines 453–461.
The embedding records the returned boolean, whether the temporary
subtitle file and the (possibly partial) output file exist after the
run, and the error messages logged. -/

inductive StageRes where
  | ok
  | err
  | cancel
deriving DecidableEq

structure RunEnv where
  filename : String
  /-- result of `has_subtitles_gui` (line 369). -/
  hasSubs : Bool
  /-- outcome of `extract_srt_gui` (line 398). -/
  extractRes : StageRes
  /-- outcome of `remove_font_balise_gui` (line 411). -/
  removeRes : StageRes
  /-- outcome of `beautify_srt_gui` (line 422). -/
  beautifyRes : StageRes
  /-- outcome of `convert_file_gui` (line 437); `cancel` models a
  `KeyboardInterrupt` raised while the encode is in progress (it is not
  caught by the `except Exception` of line 337 and reaches the handler
  of line 453). -/
  convertRes : StageRes

structure RunState where
  /-- the boolean returned by `process_file_gui`. -/
  success : Bool
  /-- the temporary subtitle file exists after the return. -/
  subtitleExists : Bool
  /-- the output file exists after the return. -/
  outputExists : Bool
  /-- messages passed to `logger.error`, in order. -/
  errorLogs : List String
deriving DecidableEq

/-- State-effect summary of `process_file_gui`.

Branch map: no subtitles → `False` (lines 369–371); extract failure →
`False` with no temp file written (lines 398–405); strip/reformat
failure → `False` with the extracted temp file left behind (lines
411–427); convert success → `True`, `convert_file_gui` has deleted the
temp file and written the output (lines 437–451); convert failure →
`False` (line 443–445); `KeyboardInterrupt` → handler deletes the temp
subtitle file and the partial output and returns `False` after logging
`"Conversion cancelled"` (lines 453–461). -/
def process_file_gui (e : RunEnv) : RunState :=
  if e.hasSubs = false then
    ⟨false, false, false, ["File has no subtitles: " ++ e.filename]⟩
  else
    match e.extractRes with
    | .cancel => ⟨false, false, false, ["Conversion cancelled"]⟩
    | .err => ⟨false, false, false, ["Failed to extract subtitles from: " ++ e.filename]⟩
    | .ok =>
      match e.removeRes with
      | .cancel => ⟨false, false, false, ["Conversion cancelled"]⟩
      | .err => ⟨false, true, false, ["Failed to remove font balises"]⟩
      | .ok =>
        match e.beautifyRes with
        | .cancel => ⟨false, false, false, ["Conversion cancelled"]⟩
        | .err => ⟨false, true, false, ["Failed to beautify subtitles"]⟩
        | .ok =>
          match e.convertRes with
          | .cancel => ⟨false, false, false, ["Conversion cancelled"]⟩
          | .err => ⟨false, true, true, ["Failed in the convert_file step"]⟩
          | .ok => ⟨true, false, true, []⟩

/-! ## `delete_mkv` (lib/utils.py lines 72–84 and utils.py lines 15–25)

The filesystem is modelled as the list of paths of existing regular
files; `removeRaises` models `os.remove` raising. -/

/-- `filename.endswith(".mkv") or filename.endswith(".MKV")`. -/
def endsWithMkv (p : String) : Bool :=
  ".mkv".data.isSuffixOf p.data || ".MKV".data.isSuffixOf p.data

/-- `delete_mkv` of lib/utils.py: returns `True` only after a successful
removal; any exception is caught and reported as `False`. -/
def delete_mkv (fs : List String) (removeRaises : Bool) (filename : String) :
    List String × Bool :=
  if fs.contains filename && endsWithMkv filename then
    if removeRaises then (fs, false)
    else (fs.erase filename, true)
  else (fs, false)

/-- `delete_mkv` of utils.py (CLI): returns `None` (modelled `.ok ()`)
on the non-raising paths; an exception during removal is caught and the
handler calls `exit(1)` (modelled `.error 1`). -/
def delete_mkv_cli (fs : List String) (removeRaises : Bool) (filename : String) :
    List String × Except Nat Unit :=
  if fs.contains filename && endsWithMkv filename then
    if removeRaises then (fs, Except.error 1)
    else (fs.erase filename, Except.ok ())
  else (fs, Except.ok ())

/-! ## Concrete environments used to instantiate the theorems -/

/-- An encode where tiers 1 and 2 fail and tier 3 succeeds. -/
def envDegraded : ConvertEnv :=
  { filename := "movie.mkv", subtitles := "subtitle-0a1b2c.srt",
    resolvedFilename := "/v/movie.mkv", resolvedSubtitles := "/v/subtitle-0a1b2c.srt",
    output := "movie-mk4.mp4", encoder := "libx264", crf := "23", audioIndex := 0,
    subtitlesExists := true, subtitlesNonempty := true, rc1 := 1, rc2 := 1, rc3 := 0 }

/-- An encode where all three tiers fail. -/
def envAllFail : ConvertEnv :=
  { envDegraded with rc3 := 1 }

/-- An encode configured with an nvenc-family encoder. -/
def envNvenc : ConvertEnv :=
  { envDegraded with encoder := "h264_nvenc", rc1 := 0 }

/-- An encode configured with an amf-family encoder. -/
def envAmf : ConvertEnv :=
  { envDegraded with encoder := "h264_amf", rc1 := 0 }

/-- A pipeline run interrupted during the Encoding stage. -/
def runCancelEnv : RunEnv :=
  { filename := "movie.mkv", hasSubs := true, extractRes := .ok,
    removeRes := .ok, beautifyRes := .ok, convertRes := .cancel }

/-- A small well-formed cue. -/
def cueW : Cue :=
  ⟨"1\n".data, "00:00:01,000 --> 00:00:02,000\n".data, ["Hello\n".data]⟩

/-! ## Lemmas about `remove_font_balise` -/

theorem scanToGt_length : ∀ {l r : List Char}, scanToGt l = some r → r.length < l.length := by
  intro l
  induction l with
  | nil => intro r h; simp [scanToGt] at h
  | cons c rest ih =>
    intro r h
    by_cases hc : c = '>'
    · simp [scanToGt, hc] at h
      simp [← h]
    · by_cases hn : c = '\n'
      · simp [scanToGt, hc, hn] at h
      · simp [scanToGt, hc, hn] at h
        have := ih h
        simp
        omega

theorem matchOpenFont_length {l r : List Char} (h : matchOpenFont l = some r) :
    r.length < l.length := by
  unfold matchOpenFont at h
  split at h
  · have h1 := scanToGt_length h
    have h2 : (l.drop 5).length ≤ l.length := by
      simp [List.length_drop]
    omega
  · exact absurd h (by simp)

theorem matchCloseFont_length {l r : List Char} (h : matchCloseFont l = some r) :
    r.length < l.length := by
  unfold matchCloseFont at h
  split at h
  · next hp =>
    have h7 : fontCloseLit.length ≤ l.length := by
      have := List.isPrefixOf_iff_prefix.mp hp
      exact this.length_le
    simp only [Option.some.injEq] at h
    subst h
    simp [List.length_drop, fontCloseLit] at h7 ⊢
    omega
  · exact absurd h (by simp)

theorem rfbGo_eq_rfb : ∀ fuel (l : List Char), l.length ≤ fuel →
    rfbGo fuel l = remove_font_balise l := by
  intro fuel
  induction fuel using Nat.strong_induction_on with
  | _ fuel ih =>
    intro l hl
    match fuel, l with
    | 0, l =>
      have : l = [] := List.eq_nil_of_length_eq_zero (Nat.le_zero.mp hl)
      subst this
      rfl
    | f + 1, [] => rfl
    | f + 1, c :: t =>
      have hl2 : t.length + 1 ≤ f + 1 := by simpa using hl
      show rfbGo (f + 1) (c :: t) = rfbGo (c :: t).length (c :: t)
      simp only [List.length_cons]
      cases hopen : matchOpenFont (c :: t) with
      | some r =>
        have hr : r.length < t.length + 1 := by
          have := matchOpenFont_length hopen
          simpa using this
        simp only [rfbGo, hopen]
        rw [ih f (by omega) r (by omega), ih t.length (by omega) r (by omega)]
      | none =>
        cases hclose : matchCloseFont (c :: t) with
        | some r =>
          have hr : r.length < t.length + 1 := by
            have := matchCloseFont_length hclose
            simpa using this
          simp only [rfbGo, hopen, hclose]
          rw [ih f (by omega) r (by omega), ih t.length (by omega) r (by omega)]
        | none =>
          simp only [rfbGo, hopen, hclose]
          rw [ih f (by omega) t (by omega), ih t.length (by omega) t (by omega)]

theorem rfb_of_open {l r : List Char} (h : matchOpenFont l = some r) :
    remove_font_balise l = remove_font_balise r := by
  match l with
  | [] => exact absurd h (by simp [matchOpenFont, fontOpenLit, List.isPrefixOf])
  | c :: t =>
    show rfbGo (t.length + 1) (c :: t) = _
    simp only [rfbGo, h]
    exact rfbGo_eq_rfb t.length r (by have := matchOpenFont_length h; simp at this; omega)

theorem rfb_of_close {l r : List Char} (h1 : matchOpenFont l = none)
    (h2 : matchCloseFont l = some r) :
    remove_font_balise l = remove_font_balise r := by
  match l with
  | [] => exact absurd h2 (by simp [matchCloseFont, fontCloseLit, List.isPrefixOf])
  | c :: t =>
    show rfbGo (t.length + 1) (c :: t) = _
    simp only [rfbGo, h1, h2]
    exact rfbGo_eq_rfb t.length r (by have := matchCloseFont_length h2; simp at this; omega)

theorem rfb_cons {c : Char} {t : List Char} (h1 : matchOpenFont (c :: t) = none)
    (h2 : matchCloseFont (c :: t) = none) :
    remove_font_balise (c :: t) = c :: remove_font_balise t := by
  show rfbGo (t.length + 1) (c :: t) = _
  simp only [rfbGo, h1, h2]
  rfl

theorem matchOpenFont_none_of_ne {c : Char} {t : List Char} (hc : c ≠ '<') :
    matchOpenFont (c :: t) = none := by
  simp [matchOpenFont, fontOpenLit, List.isPrefixOf, Ne.symm hc]

theorem matchCloseFont_none_of_ne {c : Char} {t : List Char} (hc : c ≠ '<') :
    matchCloseFont (c :: t) = none := by
  simp [matchCloseFont, fontCloseLit, List.isPrefixOf, Ne.symm hc]

theorem rfb_append_noTagStart {x : List Char} (hx : noTagStart x = true) :
    ∀ r : List Char, remove_font_balise (x ++ r) = x ++ remove_font_balise r := by
  induction x with
  | nil => intro r; simp
  | cons c x ih =>
    intro r
    simp only [noTagStart, List.all_cons, Bool.and_eq_true, decide_eq_true_eq] at hx
    rw [List.cons_append,
        rfb_cons (matchOpenFont_none_of_ne hx.1) (matchCloseFont_none_of_ne hx.1),
        ih (by simpa [noTagStart] using hx.2) r]
    rfl

theorem scanToGt_attrs {attrs : List Char} (h : attrSafe attrs = true) :
    ∀ r : List Char, scanToGt (attrs ++ '>' :: r) = some r := by
  induction attrs with
  | nil => intro r; simp [scanToGt]
  | cons a attrs ih =>
    intro r
    simp only [attrSafe, List.all_cons, Bool.and_eq_true, decide_eq_true_eq] at h
    simp only [List.cons_append, scanToGt, h.1.1, h.1.2, if_false]
    exact ih (by simpa [attrSafe] using h.2) r

theorem matchOpenFont_openTag {attrs : List Char} (h : attrSafe attrs = true)
    (r : List Char) : matchOpenFont (openTag attrs ++ r) = some r := by
  have he : openTag attrs ++ r = fontOpenLit ++ (attrs ++ '>' :: r) := by
    simp [openTag, List.append_assoc]
  rw [he]
  have hpre : fontOpenLit.isPrefixOf (fontOpenLit ++ (attrs ++ '>' :: r)) = true := by
    simp [fontOpenLit, List.isPrefixOf]
  have hdrop : (fontOpenLit ++ (attrs ++ '>' :: r)).drop 5 = attrs ++ '>' :: r :=
    List.drop_left' (by simp [fontOpenLit])
  simp only [matchOpenFont, hpre, if_true, hdrop]
  exact scanToGt_attrs h r

theorem rfb_openTag {attrs : List Char} (h : attrSafe attrs = true) (r : List Char) :
    remove_font_balise (openTag attrs ++ r) = remove_font_balise r :=
  rfb_of_open (matchOpenFont_openTag h r)

theorem matchOpenFont_closeLit (r : List Char) :
    matchOpenFont (fontCloseLit ++ r) = none := by
  simp [matchOpenFont, fontOpenLit, fontCloseLit, List.isPrefixOf]

theorem matchCloseFont_closeLit (r : List Char) :
    matchCloseFont (fontCloseLit ++ r) = some r := by
  have hpre : fontCloseLit.isPrefixOf (fontCloseLit ++ r) = true := by
    simp [fontCloseLit, List.isPrefixOf]
  have hdrop : (fontCloseLit ++ r).drop 7 = r := List.drop_left' (by simp [fontCloseLit])
  simp [matchCloseFont, hpre, hdrop]

theorem rfb_closeTag (r : List Char) :
    remove_font_balise (fontCloseLit ++ r) = remove_font_balise r :=
  rfb_of_close (matchOpenFont_closeLit r) (matchCloseFont_closeLit r)

theorem rfb_of_no_tags : ∀ {l : List Char}, hasFontTag l = false →
    remove_font_balise l = l := by
  intro l
  induction l with
  | nil => intro _; rfl
  | cons c t ih =>
    intro h
    cases hopen : matchOpenFont (c :: t) with
    | some r => simp [hasFontTag, hopen] at h
    | none =>
      cases hclose : matchCloseFont (c :: t) with
      | some r => simp [hasFontTag, hclose] at h
      | none =>
        have h2 : hasFontTag t = false := by
          simpa [hasFontTag, hopen, hclose] using h
        rw [rfb_cons hopen hclose, ih h2]

theorem rfb_renderSegs : ∀ {segs : List Seg}, (∀ s ∈ segs, segWFb s = true) →
    remove_font_balise (renderSegs segs) = plainSegs segs := by
  intro segs
  induction segs with
  | nil => intro _; rfl
  | cons s segs ih =>
    intro h
    have hs := h s (by simp)
    have hrest : ∀ x ∈ segs, segWFb x = true := fun x hx => h x (by simp [hx])
    match s with
    | .txt t =>
      simp only [renderSegs, plainSegs, List.map_cons, List.flatten_cons]
      rw [rfb_append_noTagStart (by simpa [segWFb] using hs)]
      rw [show ((segs.map renderSeg).flatten) = renderSegs segs from rfl, ih hrest]
      rfl
    | .openT attrs =>
      simp only [renderSegs, plainSegs, List.map_cons, List.flatten_cons, renderSeg]
      rw [rfb_openTag (by simpa [segWFb] using hs)]
      rw [show ((segs.map renderSeg).flatten) = renderSegs segs from rfl, ih hrest]
      rfl
    | .closeT =>
      simp only [renderSegs, plainSegs, List.map_cons, List.flatten_cons, renderSeg]
      rw [rfb_closeTag]
      rw [show ((segs.map renderSeg).flatten) = renderSegs segs from rfl, ih hrest]
      rfl

/-! ## Lemmas about `readlines` -/

theorem readlinesAux_line {b : List Char} (hb : ∀ c ∈ b, c ≠ '\n') :
    ∀ (acc rest : List Char),
      readlinesAux acc (b ++ '\n' :: rest) =
        (acc.reverse ++ b ++ ['\n']) :: readlinesAux [] rest := by
  induction b with
  | nil =>
    intro acc rest
    simp [readlinesAux]
  | cons c b ih =>
    intro acc rest
    have hc : c ≠ '\n' := hb c (by simp)
    simp only [List.cons_append, readlinesAux, hc, if_false, List.append_eq]
    rw [ih (fun x hx => hb x (by simp [hx])) (c :: acc) rest]
    simp

theorem lineWFb_decomp {l : List Char} (h : lineWFb l = true) :
    ∃ b, l = b ++ ['\n'] ∧ ∀ c ∈ b, c ≠ '\n' := by
  simp only [lineWFb, Bool.and_eq_true, beq_iff_eq] at h
  obtain ⟨b, hb⟩ := List.getLast?_eq_some_iff.mp h.1
  refine ⟨b, hb, ?_⟩
  intro c hc
  have hd : l.dropLast = b := by rw [hb]; exact List.dropLast_concat
  have := h.2
  rw [hd] at this
  simpa using List.all_eq_true.mp this c hc

theorem readlines_cons {l : List Char} (h : lineWFb l = true) (rest : List Char) :
    readlines (l ++ rest) = l :: readlines rest := by
  obtain ⟨b, rfl, hb⟩ := lineWFb_decomp h
  show readlinesAux [] ((b ++ ['\n']) ++ rest) = _
  rw [List.append_assoc, List.singleton_append, readlinesAux_line hb]
  simp [readlines]

theorem readlines_flatten : ∀ {lines : List (List Char)},
    (∀ l ∈ lines, lineWFb l = true) → readlines lines.flatten = lines := by
  intro lines
  induction lines with
  | nil => intro _; rfl
  | cons l lines ih =>
    intro h
    rw [List.flatten_cons, readlines_cons (h l (by simp)),
        ih (fun x hx => h x (by simp [hx]))]

/-! ## Equations of the `beautify_srt_gui` scanner -/

theorem bglGo_eq_fuel (size name : List Char) : ∀ fuel (ls : List (List Char)),
    ls.length ≤ fuel → bglGo size name fuel ls = beautifyGuiLines size name ls := by
  intro fuel
  induction fuel using Nat.strong_induction_on with
  | _ fuel ih =>
    intro ls hl
    match fuel, ls with
    | 0, ls =>
      have : ls = [] := List.eq_nil_of_length_eq_zero (Nat.le_zero.mp hl)
      subst this; rfl
    | f + 1, [] => rfl
    | f + 1, l :: rest =>
      have hl2 : rest.length + 1 ≤ f + 1 := by simpa using hl
      show bglGo size name (f + 1) (l :: rest) =
        bglGo size name (l :: rest).length (l :: rest)
      simp only [List.length_cons]
      by_cases hd : isDigitLine l
      · match rest with
        | [] => simp [bglGo, hd]
        | ts :: rest2 =>
          have hr3 : (rest2.dropWhile (fun x => !isBlankLine x)).length ≤ rest2.length :=
            (List.dropWhile_sublist _).length_le
          have hlen : rest2.length + 2 ≤ f + 1 := by simpa using hl
          simp only [bglGo, hd, if_true, List.length_cons]
          rw [ih f (by omega) _ (by omega), ih (rest2.length + 1) (by omega) _ (by omega)]
      · have hd2 : isDigitLine l = false := by simpa using hd
        simp only [bglGo, hd2, Bool.false_eq_true, if_false]
        rw [ih f (by omega) rest (by omega), ih rest.length (by omega) rest (by omega)]

theorem beautifyGuiLines_nil (size name : List Char) :
    beautifyGuiLines size name [] = [] := rfl

theorem beautifyGuiLines_other {l : List (Char)} (size name : List Char)
    (h : isDigitLine l = false) (rest : List (List Char)) :
    beautifyGuiLines size name (l :: rest) = l :: beautifyGuiLines size name rest := by
  show bglGo size name (rest.length + 1) (l :: rest) = _
  simp [bglGo, h, beautifyGuiLines]

theorem beautifyGuiLines_cue {l : List Char} (size name : List Char)
    (h : isDigitLine l = true) (ts : List Char) (rest2 : List (List Char)) :
    beautifyGuiLines size name (l :: ts :: rest2) =
      l :: ts ::
        wrapGui size name (rest2.takeWhile (fun x => !isBlankLine x)).flatten ::
        beautifyGuiLines size name (rest2.dropWhile (fun x => !isBlankLine x)) := by
  show bglGo size name (rest2.length + 2) (l :: ts :: rest2) = _
  have hr3 : (rest2.dropWhile (fun x => !isBlankLine x)).length ≤ rest2.length :=
    (List.dropWhile_sublist _).length_le
  simp only [bglGo, h, if_true]
  rw [bglGo_eq_fuel size name (rest2.length + 1) _ (by omega)]

theorem beautifyGuiLines_single {l : List Char} (size name : List Char)
    (h : isDigitLine l = true) :
    beautifyGuiLines size name [l] = [l, wrapGui size name []] := by
  show bglGo size name 1 [l] = _
  simp [bglGo, h]

/-! ## Equations of the markup-free comparator scanner -/

theorem bnmGo_eq_fuel : ∀ fuel (ls : List (List Char)),
    ls.length ≤ fuel → bnmGo fuel ls = bnmGo ls.length ls := by
  intro fuel
  induction fuel using Nat.strong_induction_on with
  | _ fuel ih =>
    intro ls hl
    match fuel, ls with
    | 0, ls =>
      have : ls = [] := List.eq_nil_of_length_eq_zero (Nat.le_zero.mp hl)
      subst this; rfl
    | f + 1, [] => rfl
    | f + 1, l :: rest =>
      have hl2 : rest.length + 1 ≤ f + 1 := by simpa using hl
      simp only [List.length_cons]
      by_cases hd : isDigitLine l
      · match rest with
        | [] => simp [bnmGo, hd]
        | ts :: rest2 =>
          have hr3 : (rest2.dropWhile (fun x => !isBlankLine x)).length ≤ rest2.length :=
            (List.dropWhile_sublist _).length_le
          have hlen : rest2.length + 2 ≤ f + 1 := by simpa using hl
          simp only [bnmGo, hd, if_true, List.length_cons]
          rw [ih f (by omega) _ (by omega), ih (rest2.length + 1) (by omega) _ (by omega)]
      · have hd2 : isDigitLine l = false := by simpa using hd
        simp only [bnmGo, hd2, Bool.false_eq_true, if_false]
        rw [ih f (by omega) rest (by omega), ih rest.length (by omega) rest (by omega)]

theorem bnmGo_other {l : List (Char)} (h : isDigitLine l = false)
    (rest : List (List Char)) :
    bnmGo (l :: rest).length (l :: rest) = l :: bnmGo rest.length rest := by
  simp [bnmGo, h]

theorem bnmGo_cue {l : List Char} (h : isDigitLine l = true) (ts : List Char)
    (rest2 : List (List Char)) :
    bnmGo (l :: ts :: rest2).length (l :: ts :: rest2) =
      l :: ts ::
        ((rest2.takeWhile (fun x => !isBlankLine x)).flatten ++ "\n\n".data) ::
        bnmGo (rest2.dropWhile (fun x => !isBlankLine x)).length
          (rest2.dropWhile (fun x => !isBlankLine x)) := by
  have hr3 : (rest2.dropWhile (fun x => !isBlankLine x)).length ≤ rest2.length :=
    (List.dropWhile_sublist _).length_le
  simp only [List.length_cons, bnmGo, h, if_true]
  rw [bnmGo_eq_fuel (rest2.length + 1) _ (by omega)]

/-! ## Cue-level behaviour of the scanners -/

theorem cueWFb_parts {c : Cue} (h : cueWFb c = true) :
    isDigitLine c.numLine = true ∧ lineWFb c.numLine = true ∧
    lineWFb c.tsLine = true ∧
    (∀ d ∈ c.dialog, lineWFb d = true ∧ isBlankLine d = false) := by
  simp only [cueWFb, Bool.and_eq_true, List.all_eq_true, Bool.not_eq_true] at h
  exact ⟨h.1.1.1.1.1, h.1.1.1.1.2, h.1.1.2, fun d hd => by
    have := h.2 d hd
    exact ⟨this.1, by simpa using this.2⟩⟩

theorem dialog_nonblank {c : Cue} (h : cueWFb c = true) :
    ∀ d ∈ c.dialog, (!isBlankLine d) = true := by
  intro d hd
  have := (cueWFb_parts h).2.2.2 d hd
  simp [this.2]

theorem takeWhile_dialog_sep {c : Cue} (h : cueWFb c = true) (rest : List (List Char)) :
    (c.dialog ++ ['\n'] :: rest).takeWhile (fun x => !isBlankLine x) = c.dialog := by
  rw [List.takeWhile_append_of_pos (dialog_nonblank h)]
  rw [List.takeWhile_cons_of_neg]
  · simp
  · simp [isBlankLine, pyStrip, isPySpace]

theorem dropWhile_dialog_sep {c : Cue} (h : cueWFb c = true) (rest : List (List Char)) :
    (c.dialog ++ ['\n'] :: rest).dropWhile (fun x => !isBlankLine x) = ['\n'] :: rest := by
  rw [List.dropWhile_append_of_pos (dialog_nonblank h)]
  rw [List.dropWhile_cons_of_neg]
  simp [isBlankLine, pyStrip, isPySpace]

theorem takeWhile_dialog_end {c : Cue} (h : cueWFb c = true) :
    c.dialog.takeWhile (fun x => !isBlankLine x) = c.dialog := by
  rw [show c.dialog = c.dialog ++ [] from by simp,
      List.takeWhile_append_of_pos (dialog_nonblank h)]
  simp

theorem dropWhile_dialog_end {c : Cue} (h : cueWFb c = true) :
    c.dialog.dropWhile (fun x => !isBlankLine x) = [] := by
  rw [show c.dialog = c.dialog ++ [] from by simp,
      List.dropWhile_append_of_pos (dialog_nonblank h)]
  rfl

theorem newline_not_digit : isDigitLine ['\n'] = false := by decide

theorem beautifyGuiLines_cueSep {c : Cue} (size name : List Char) (h : cueWFb c = true)
    (rest : List (List Char)) :
    beautifyGuiLines size name (cueLinesSep c ++ rest) =
      c.numLine :: c.tsLine :: wrapGui size name c.dialog.flatten :: ['\n'] ::
        beautifyGuiLines size name rest := by
  have he : cueLinesSep c ++ rest =
      c.numLine :: c.tsLine :: (c.dialog ++ ['\n'] :: rest) := by
    simp [cueLinesSep, List.append_assoc]
  rw [he, beautifyGuiLines_cue size name (cueWFb_parts h).1,
      takeWhile_dialog_sep h, dropWhile_dialog_sep h,
      beautifyGuiLines_other size name newline_not_digit]

theorem beautifyGuiLines_cueEnd {c : Cue} (size name : List Char) (h : cueWFb c = true) :
    beautifyGuiLines size name (cueLinesEnd c) =
      [c.numLine, c.tsLine, wrapGui size name c.dialog.flatten] := by
  show beautifyGuiLines size name (c.numLine :: c.tsLine :: c.dialog) = _
  rw [beautifyGuiLines_cue size name (cueWFb_parts h).1,
      takeWhile_dialog_end h, dropWhile_dialog_end h]
  rfl

theorem renderDocLines_WF : ∀ {cues : List Cue} {tailCue : Option Cue},
    (∀ c ∈ cues, cueWFb c = true) → (∀ c, tailCue = some c → cueWFb c = true) →
    ∀ l ∈ renderDocLines cues tailCue, lineWFb l = true := by
  intro cues
  induction cues with
  | nil =>
    intro tailCue _ ht l hl
    match tailCue with
    | none => simp [renderDocLines] at hl
    | some c =>
      have hc := cueWFb_parts (ht c rfl)
      simp only [renderDocLines, List.map_nil, List.flatten_nil, List.nil_append,
        cueLinesEnd, List.mem_cons] at hl
      rcases hl with rfl | rfl | hl
      · exact hc.2.1
      · exact hc.2.2.1
      · exact ((ht c rfl) |> cueWFb_parts).2.2.2 l hl |>.1
  | cons c cues ih =>
    intro tailCue hcs ht l hl
    have hc := cueWFb_parts (hcs c (by simp))
    have hstep : renderDocLines (c :: cues) tailCue =
        cueLinesSep c ++ renderDocLines cues tailCue := by
      simp [renderDocLines, List.append_assoc]
    rw [hstep] at hl
    rcases List.mem_append.mp hl with h1 | h2
    · have h1b : l = c.numLine ∨ l = c.tsLine ∨ l ∈ c.dialog ∨ l = ['\n'] := by
        simpa [cueLinesSep] using h1
      rcases h1b with rfl | rfl | hd | rfl
      · exact hc.2.1
      · exact hc.2.2.1
      · exact (hc.2.2.2 l hd).1
      · decide
    · exact ih (fun x hx => hcs x (by simp [hx])) ht l h2

theorem beautifyGuiLines_renderDoc (size name : List Char) :
    ∀ (cues : List Cue) (tailCue : Option Cue),
    (∀ c ∈ cues, cueWFb c = true) → (∀ c, tailCue = some c → cueWFb c = true) →
    beautifyGuiLines size name (renderDocLines cues tailCue) =
      guiOutLines size name cues tailCue := by
  intro cues
  induction cues with
  | nil =>
    intro tailCue _ ht
    match tailCue with
    | none => rfl
    | some c =>
      show beautifyGuiLines size name (cueLinesEnd c) = guiOutLines size name [] (some c)
      rw [beautifyGuiLines_cueEnd size name (ht c rfl)]
      rfl
  | cons c cues ih =>
    intro tailCue hcs ht
    have hstep : renderDocLines (c :: cues) tailCue =
        cueLinesSep c ++ renderDocLines cues tailCue := by
      simp [renderDocLines, List.append_assoc]
    have hout : guiOutLines size name (c :: cues) tailCue =
        guiCueOutSep size name c ++ guiOutLines size name cues tailCue := by
      simp [guiOutLines, List.append_assoc]
    rw [hstep, hout, beautifyGuiLines_cueSep size name (hcs c (by simp)),
        ih tailCue (fun x hx => hcs x (by simp [hx])) ht]
    rfl

/-! ## The strip–reformat composite -/

theorem rfb_nil : remove_font_balise [] = [] := rfl

theorem fontPre_eq_openTag (size name : List Char) :
    fontPre size name = openTag (fontAttrs size name) := by
  simp [fontPre, openTag, fontAttrs, fontOpenLit, List.append_assoc]

theorem fontAttrs_safe {size name : List Char} (hs : attrSafe size = true)
    (hn : attrSafe name = true) : attrSafe (fontAttrs size name) = true := by
  simp only [attrSafe, fontAttrs, List.all_append, Bool.and_eq_true] at *
  refine ⟨⟨⟨⟨by decide, hs⟩, by decide⟩, hn⟩, by decide⟩

theorem noTagStart_flatten {ls : List (List Char)}
    (h : ∀ l ∈ ls, noTagStart l = true) : noTagStart ls.flatten = true := by
  simp only [noTagStart, List.all_eq_true] at *
  intro c hc
  obtain ⟨l, hl, hcl⟩ := List.mem_flatten.mp hc
  exact h l hl c hcl

theorem close_nl_split : "</font>\n\n".data = fontCloseLit ++ "\n\n".data := by decide

theorem rfb_wrapGui {size name dialog : List Char} (hs : attrSafe size = true)
    (hn : attrSafe name = true) (hd : noTagStart dialog = true) (r : List Char) :
    remove_font_balise (wrapGui size name dialog ++ r) =
      dialog ++ "\n\n".data ++ remove_font_balise r := by
  have he : wrapGui size name dialog ++ r =
      openTag (fontAttrs size name) ++ (dialog ++ (fontCloseLit ++ ("\n\n".data ++ r))) := by
    rw [wrapGui, fontPre_eq_openTag, close_nl_split]
    simp [List.append_assoc]
  rw [he, rfb_openTag (fontAttrs_safe hs hn), rfb_append_noTagStart hd,
      rfb_closeTag, rfb_append_noTagStart (by decide)]
  simp [List.append_assoc]

theorem rfb_beautify_flatten {size name : List Char} (hs : attrSafe size = true)
    (hn : attrSafe name = true) :
    ∀ (fuel : Nat) (L : List (List Char)), L.length ≤ fuel →
      (∀ l ∈ L, noTagStart l = true) →
      remove_font_balise ((beautifyGuiLines size name L).flatten) =
        (bnmGo L.length L).flatten := by
  intro fuel
  induction fuel using Nat.strong_induction_on with
  | _ fuel ih =>
    intro L hlen hL
    match fuel, L with
    | 0, L =>
      have : L = [] := List.eq_nil_of_length_eq_zero (Nat.le_zero.mp hlen)
      subst this; rfl
    | f + 1, [] => rfl
    | f + 1, l :: rest =>
      have hl : noTagStart l = true := hL l (by simp)
      have hrest : ∀ x ∈ rest, noTagStart x = true := fun x hx => hL x (by simp [hx])
      by_cases hdig : isDigitLine l = true
      · match rest with
        | [] =>
          rw [beautifyGuiLines_single size name hdig]
          show remove_font_balise (l ++ (wrapGui size name [] ++ [])) = _
          rw [rfb_append_noTagStart hl, rfb_wrapGui hs hn (by decide), rfb_nil]
          simp only [List.length_cons, List.length_nil, bnmGo, hdig, if_true]
          simp
        | ts :: rest2 =>
          have hts : noTagStart ts = true := hL ts (by simp)
          have hr2 : ∀ x ∈ rest2, noTagStart x = true := fun x hx => hL x (by simp [hx])
          have hlen2 : rest2.length + 2 ≤ f + 1 := by simpa using hlen
          have hdia : noTagStart (rest2.takeWhile (fun x => !isBlankLine x)).flatten = true :=
            noTagStart_flatten (fun x hx =>
              hr2 x ((List.takeWhile_sublist _).subset hx))
          have hr3sub : ∀ x ∈ rest2.dropWhile (fun x => !isBlankLine x), noTagStart x = true :=
            fun x hx => hr2 x ((List.dropWhile_sublist _).subset hx)
          have hr3len : (rest2.dropWhile (fun x => !isBlankLine x)).length ≤ rest2.length :=
            (List.dropWhile_sublist _).length_le
          rw [beautifyGuiLines_cue size name hdig, bnmGo_cue hdig]
          show remove_font_balise
              (l ++ (ts ++ (wrapGui size name _ ++ (beautifyGuiLines size name _).flatten))) = _
          rw [rfb_append_noTagStart hl, rfb_append_noTagStart hts,
              rfb_wrapGui hs hn hdia,
              ih f (by omega) _ (by omega) hr3sub]
          simp [List.flatten_cons, List.append_assoc]
      · have hdig2 : isDigitLine l = false := by simpa using hdig
        rw [beautifyGuiLines_other size name hdig2, bnmGo_other hdig2]
        show remove_font_balise (l ++ (beautifyGuiLines size name rest).flatten) = _
        rw [rfb_append_noTagStart hl, ih f (by omega) rest (by simpa using hlen) hrest]
        rfl

theorem readlinesAux_chars : ∀ (t acc : List Char), ∀ l ∈ readlinesAux acc t,
    ∀ ch ∈ l, ch ∈ acc ∨ ch ∈ t := by
  intro t
  induction t with
  | nil =>
    intro acc l hl ch hch
    by_cases hacc : acc.isEmpty
    · simp [readlinesAux, hacc] at hl
    · simp [readlinesAux, hacc] at hl
      subst hl
      exact Or.inl (by simpa using hch)
  | cons c rest ih =>
    intro acc l hl ch hch
    by_cases hc : c = '\n'
    · subst hc
      simp only [readlinesAux, if_true] at hl
      rcases List.mem_cons.mp hl with rfl | hl2
      · rcases List.mem_append.mp hch with h1 | h2
        · exact Or.inl (by simpa using h1)
        · simp only [List.mem_singleton] at h2
          subst h2
          exact Or.inr (by simp)
      · rcases ih [] l hl2 ch hch with h1 | h2
        · simp at h1
        · exact Or.inr (by simp [h2])
    · simp only [readlinesAux, hc, if_false] at hl
      rcases ih (c :: acc) l hl ch hch with h1 | h2
      · rcases List.mem_cons.mp h1 with rfl | h3
        · exact Or.inr (by simp)
        · exact Or.inl h3
      · exact Or.inr (by simp [h2])

theorem readlines_noTagStart {t : List Char} (h : noTagStart t = true) :
    ∀ l ∈ readlines t, noTagStart l = true := by
  intro l hl
  simp only [noTagStart, List.all_eq_true, decide_eq_true_eq] at h ⊢
  intro ch hch
  rcases readlinesAux_chars t [] l hl ch hch with h1 | h2
  · simp at h1
  · exact h ch h2

/-! ## Equations of the `beautify_srt` (CLI) scanner -/

theorem bclGo_eq_fuel (size name : List Char) : ∀ fuel (ls : List (List Char)),
    ls.length ≤ fuel → bclGo size name fuel ls = beautifyCliLines size name ls := by
  intro fuel
  induction fuel using Nat.strong_induction_on with
  | _ fuel ih =>
    intro ls hl
    match fuel, ls with
    | 0, ls =>
      have : ls = [] := List.eq_nil_of_length_eq_zero (Nat.le_zero.mp hl)
      subst this; rfl
    | f + 1, [] => rfl
    | f + 1, l :: rest =>
      have hl2 : rest.length + 1 ≤ f + 1 := by simpa using hl
      show bclGo size name (f + 1) (l :: rest) =
        bclGo size name (l :: rest).length (l :: rest)
      simp only [List.length_cons]
      by_cases hd : isDigitLine l
      · match rest with
        | [] => simp [bclGo, hd]
        | ts :: rest2 =>
          have hr3 : (rest2.dropWhile (fun x => x ≠ ['\n'])).length ≤ rest2.length :=
            (List.dropWhile_sublist _).length_le
          have hlen : rest2.length + 2 ≤ f + 1 := by simpa using hl
          simp only [bclGo, hd, if_true, List.length_cons]
          rw [ih f (by omega) _ (by omega), ih (rest2.length + 1) (by omega) _ (by omega)]
      · have hd2 : isDigitLine l = false := by simpa using hd
        simp only [bclGo, hd2, Bool.false_eq_true, if_false]
        rw [ih f (by omega) rest (by omega), ih rest.length (by omega) rest (by omega)]

theorem beautifyCliLines_other {l : List Char} (size name : List Char)
    (h : isDigitLine l = false) (rest : List (List Char)) :
    beautifyCliLines size name (l :: rest) = beautifyCliLines size name rest := by
  show bclGo size name (rest.length + 1) (l :: rest) = _
  simp [bclGo, h, beautifyCliLines]

theorem beautifyCliLines_cue {l : List Char} (size name : List Char)
    (h : isDigitLine l = true) (ts : List Char) (rest2 : List (List Char)) :
    beautifyCliLines size name (l :: ts :: rest2) =
      (beautifyCliLines size name (rest2.dropWhile (fun x => x ≠ ['\n']))).map
        (fun out => l :: ts ::
          wrapCli size name (rest2.takeWhile (fun x => x ≠ ['\n'])).flatten ::
          "\n\n".data :: out) := by
  show bclGo size name (rest2.length + 2) (l :: ts :: rest2) = _
  have hr3 : (rest2.dropWhile (fun x => x ≠ ['\n'])).length ≤ rest2.length :=
    (List.dropWhile_sublist _).length_le
  simp only [bclGo, h, if_true]
  rw [bclGo_eq_fuel size name (rest2.length + 1) _ (by omega)]

theorem dialog_ne_newline {c : Cue} (h : cueWFb c = true) :
    ∀ d ∈ c.dialog, (fun x => decide (x ≠ ['\n'])) d = true := by
  intro d hd
  have hb := (cueWFb_parts h).2.2.2 d hd
  simp only [decide_eq_true_eq]
  intro he
  rw [he] at hb
  exact absurd hb.2 (by decide)

theorem takeWhile_dialog_sep_cli {c : Cue} (h : cueWFb c = true)
    (rest : List (List Char)) :
    (c.dialog ++ ['\n'] :: rest).takeWhile (fun x => x ≠ ['\n']) = c.dialog := by
  rw [List.takeWhile_append_of_pos (dialog_ne_newline h)]
  rw [List.takeWhile_cons_of_neg]
  · simp
  · simp

theorem dropWhile_dialog_sep_cli {c : Cue} (h : cueWFb c = true)
    (rest : List (List Char)) :
    (c.dialog ++ ['\n'] :: rest).dropWhile (fun x => x ≠ ['\n']) = ['\n'] :: rest := by
  rw [List.dropWhile_append_of_pos (dialog_ne_newline h)]
  rw [List.dropWhile_cons_of_neg]
  simp

theorem takeWhile_dialog_end_cli {c : Cue} (h : cueWFb c = true) :
    c.dialog.takeWhile (fun x => x ≠ ['\n']) = c.dialog := by
  rw [show c.dialog = c.dialog ++ [] from by simp,
      List.takeWhile_append_of_pos (dialog_ne_newline h)]
  simp

theorem dropWhile_dialog_end_cli {c : Cue} (h : cueWFb c = true) :
    c.dialog.dropWhile (fun x => x ≠ ['\n']) = [] := by
  rw [show c.dialog = c.dialog ++ [] from by simp,
      List.dropWhile_append_of_pos (dialog_ne_newline h)]
  rfl

theorem beautifyCliLines_cueSep {c : Cue} (size name : List Char) (h : cueWFb c = true)
    (rest : List (List Char)) :
    beautifyCliLines size name (cueLinesSep c ++ rest) =
      (beautifyCliLines size name rest).map
        (fun out => c.numLine :: c.tsLine ::
          wrapCli size name c.dialog.flatten :: "\n\n".data :: out) := by
  have he : cueLinesSep c ++ rest =
      c.numLine :: c.tsLine :: (c.dialog ++ ['\n'] :: rest) := by
    simp [cueLinesSep, List.append_assoc]
  rw [he, beautifyCliLines_cue size name (cueWFb_parts h).1,
      takeWhile_dialog_sep_cli h, dropWhile_dialog_sep_cli h,
      beautifyCliLines_other size name newline_not_digit]

theorem beautifyCliLines_cueEnd {c : Cue} (size name : List Char) (h : cueWFb c = true) :
    beautifyCliLines size name (cueLinesEnd c) =
      some [c.numLine, c.tsLine, wrapCli size name c.dialog.flatten, "\n\n".data] := by
  show beautifyCliLines size name (c.numLine :: c.tsLine :: c.dialog) = _
  rw [beautifyCliLines_cue size name (cueWFb_parts h).1,
      takeWhile_dialog_end_cli h, dropWhile_dialog_end_cli h]
  rfl

theorem beautifyCliLines_renderDoc (size name : List Char) :
    ∀ (cues : List Cue) (tailCue : Option Cue),
    (∀ c ∈ cues, cueWFb c = true) → (∀ c, tailCue = some c → cueWFb c = true) →
    beautifyCliLines size name (renderDocLines cues tailCue) =
      some (cliOutLines size name cues tailCue) := by
  intro cues
  induction cues with
  | nil =>
    intro tailCue _ ht
    match tailCue with
    | none => rfl
    | some c =>
      show beautifyCliLines size name (cueLinesEnd c) = _
      rw [beautifyCliLines_cueEnd size name (ht c rfl)]
      rfl
  | cons c cues ih =>
    intro tailCue hcs ht
    have hstep : renderDocLines (c :: cues) tailCue =
        cueLinesSep c ++ renderDocLines cues tailCue := by
      simp [renderDocLines, List.append_assoc]
    have hout : cliOutLines size name (c :: cues) tailCue =
        cliCueOut size name c ++ cliOutLines size name cues tailCue := by
      simp [cliOutLines, List.append_assoc]
    rw [hstep, hout, beautifyCliLines_cueSep size name (hcs c (by simp)),
        ih tailCue (fun x hx => hcs x (by simp [hx])) ht]
    rfl

/-! ## Claims about the encode orchestration -/

theorem vf_ne_audioMap (s : String) : "-vf" ≠ "0:a:" ++ s := by
  intro h
  have hd := congrArg String.data h
  simp [String.data_append] at hd

/-- Claim C1: when the primary subtitle-burn command and the
alternate-path retry both exit non-zero but the no-subtitles command
exits zero, `convert_file_gui` returns the degraded success `true`
after attempting exactly the three tiers in order, and the third
command carries no `-vf` subtitle-filter argument; moreover the
failure `false` is reported precisely when all three tiers exit
non-zero. -/
theorem C1_fallback_ladder :
    (∀ e : ConvertEnv, e.subtitlesExists = true → e.subtitlesNonempty = true →
      e.rc1 ≠ 0 → e.rc2 ≠ 0 → e.rc3 = 0 →
      e.filename ≠ "-vf" → e.encoder ≠ "-vf" → e.crf ≠ "-vf" → e.output ≠ "-vf" →
      (convert_file_gui e).1 = true ∧
      "-vf" ∉ no_subs_cmd e ∧
      attemptedCommands e = [ffmpeg_cmd e, subtitle_filter_cmd e, no_subs_cmd e]) ∧
    (∀ e : ConvertEnv, e.subtitlesExists = true → e.subtitlesNonempty = true →
      ((convert_file_gui e).1 = false ↔ e.rc1 ≠ 0 ∧ e.rc2 ≠ 0 ∧ e.rc3 ≠ 0)) := by
  constructor
  · intro e h1 h2 hr1 hr2 hr3 hf he hc ho
    refine ⟨?_, ?_, ?_⟩
    · simp [convert_file_gui, h1, h2, hr1, hr2, hr3]
    · simp [no_subs_cmd, Ne.symm hf, Ne.symm he, Ne.symm hc, Ne.symm ho,
        vf_ne_audioMap (toString e.audioIndex)]
    · simp [attemptedCommands, h1, h2, hr1, hr2]
  · intro e h1 h2
    by_cases k1 : e.rc1 = 0 <;> by_cases k2 : e.rc2 = 0 <;> by_cases k3 : e.rc3 = 0 <;>
      simp [convert_file_gui, h1, h2, k1, k2, k3]

theorem C1_witness :
    (convert_file_gui envDegraded).1 = true ∧
    "-vf" ∉ no_subs_cmd envDegraded ∧
    attemptedCommands envDegraded =
      [ffmpeg_cmd envDegraded, subtitle_filter_cmd envDegraded, no_subs_cmd envDegraded] ∧
    ((convert_file_gui envDegraded).1 = false ↔
      envDegraded.rc1 ≠ 0 ∧ envDegraded.rc2 ≠ 0 ∧ envDegraded.rc3 ≠ 0) := by
  have h := C1_fallback_ladder.1 envDegraded (by decide) (by decide) (by decide)
    (by decide) (by decide) (by decide) (by decide) (by decide) (by decide)
  exact ⟨h.1, h.2.1, h.2.2, C1_fallback_ladder.2 envDegraded (by decide) (by decide)⟩

/-- Claim C4, counterexample: with the nvenc-family encoder
`"h264_nvenc"` configured, the built commands still use the
constant-rate-factor flag `-crf` and no constrained-quality or
quantization-pair flag, contradicting the claimed per-family
dispatch. -/
theorem C4_counterexample :
    envNvenc.encoder = "h264_nvenc" ∧
    "-crf" ∈ ffmpeg_cmd envNvenc ∧ "-cq" ∉ ffmpeg_cmd envNvenc ∧
    "-qp_p" ∉ ffmpeg_cmd envNvenc ∧ "-qp_i" ∉ ffmpeg_cmd envNvenc := by
  refine ⟨rfl, ?_, ?_, ?_, ?_⟩ <;> decide

/-- Claim C4, amended: the quality parameter of every built encode
command is the constant-rate-factor flag `-crf` for every configured
encoder name; no encoder-family dispatch to `-cq` or `-qp_p`/`-qp_i`
exists in the command construction. -/
theorem C4_uniform_crf :
    ∀ e : ConvertEnv,
    e.filename ∉ qualityFlagList →
    e.resolvedFilename ∉ qualityFlagList →
    e.encoder ∉ qualityFlagList →
    e.crf ∉ qualityFlagList →
    e.output ∉ qualityFlagList →
    ("subtitles=\x27" ++ escapeColons e.resolvedSubtitles ++ "\x27") ∉ qualityFlagList →
    ("subtitles=" ++ e.subtitles) ∉ qualityFlagList →
    ("0:a:" ++ toString e.audioIndex) ∉ qualityFlagList →
    qualityFlagsUsed (ffmpeg_cmd e) = ["-crf"] ∧
    qualityFlagsUsed (subtitle_filter_cmd e) = ["-crf"] ∧
    qualityFlagsUsed (no_subs_cmd e) = ["-crf"] := by
  intro e hf hrf he hc ho hs1 hs2 ha
  simp only [qualityFlagList, List.mem_cons, List.not_mem_nil, or_false,
    not_or] at hf hrf he hc ho hs1 hs2 ha
  refine ⟨?_, ?_, ?_⟩ <;>
    simp_all [qualityFlagsUsed, ffmpeg_cmd, subtitle_filter_cmd, no_subs_cmd,
      qualityFlagList, List.filter]

theorem C4_witness :
    qualityFlagsUsed (ffmpeg_cmd envAmf) = ["-crf"] ∧
    qualityFlagsUsed (subtitle_filter_cmd envAmf) = ["-crf"] ∧
    qualityFlagsUsed (no_subs_cmd envAmf) = ["-crf"] :=
  C4_uniform_crf envAmf (by decide) (by decide) (by decide) (by decide) (by decide)
    (by decide) (by decide) (by decide)

/-- Claim C5, counterexample: when all three encoder tiers fail,
`convert_file_gui` returns `false` with the temporary subtitle file
still existing — the claimed deletion on every terminal outcome does
not happen on the failure outcome. -/
theorem C5_counterexample :
    convert_file_gui envAllFail = (false, true) := by decide

/-- Claim C5, amended: `convert_file_gui` deletes the temporary
subtitle file before returning on the success and degraded-success
outcomes, but on the failure outcome (all three tiers non-zero) it
returns with the file still in place. -/
theorem C5_cleanup :
    ∀ e : ConvertEnv,
    ((convert_file_gui e).1 = true → (convert_file_gui e).2 = false) ∧
    (e.subtitlesExists = true → e.subtitlesNonempty = true →
      (convert_file_gui e).1 = false → (convert_file_gui e).2 = true) := by
  intro e
  unfold convert_file_gui
  split_ifs <;> simp_all

theorem C5_witness :
    (convert_file_gui envDegraded).2 = false ∧ (convert_file_gui envAllFail).2 = true :=
  ⟨(C5_cleanup envDegraded).1 (by decide),
   (C5_cleanup envAllFail).2 (by decide) (by decide) (by decide)⟩

/-! ## Claims about the subtitle transformer -/

/-- Claim C2, counterexample: on the tag-free document `"1\nt\nA"`,
`strip (reformat (strip D))` differs from `strip D` — the reformat
pass appends a two-newline cue separator that stripping does not
remove — for both the CLI and the GUI reformat. -/
theorem C2_counterexample :
    (beautify_srt "24".data "Arial".data
        (remove_font_balise "1\nt\nA".data)).map remove_font_balise ≠
      some (remove_font_balise "1\nt\nA".data) ∧
    remove_font_balise (beautify_srt_gui "24".data "Arial".data
        (remove_font_balise "1\nt\nA".data)) ≠
      remove_font_balise "1\nt\nA".data := by
  constructor <;> decide

/-- Claim C2, amended: stripping after reformat removes exactly the
markup reformat added — for every document whose stripped text contains
no `'<'` and every configured size and name free of `'>'` and newline,
`strip (reformat (strip D))` equals the reformat of `strip D` with the
font wrapper replaced by nothing; it differs from `strip D` itself only
by the separators the reformat rewrites. -/
theorem C2_strip_reformat_strip :
    ∀ (size name D : List Char),
    attrSafe size = true → attrSafe name = true →
    noTagStart (remove_font_balise D) = true →
    remove_font_balise (beautify_srt_gui size name (remove_font_balise D)) =
      beautify_no_markup (remove_font_balise D) := by
  intro s n D hs hn hD
  show remove_font_balise
      ((beautifyGuiLines s n (readlines (remove_font_balise D))).flatten) = _
  rw [rfb_beautify_flatten hs hn (readlines (remove_font_balise D)).length _ le_rfl
    (readlines_noTagStart hD)]
  rfl

theorem C2_witness :
    remove_font_balise (beautify_srt_gui "24".data "Arial".data
        (remove_font_balise "1\nt\n<font color=\"red\">Hi</font>\n\n".data)) =
      beautify_no_markup
        (remove_font_balise "1\nt\n<font color=\"red\">Hi</font>\n\n".data) :=
  C2_strip_reformat_strip "24".data "Arial".data _ (by decide) (by decide) (by decide)

/-- Claim C7: on every well-formed cue-numbered document — blank-line
separated cues, each a pure-integer number line, a time-range line and
non-blank dialogue lines, optionally ending with a cue at end of input —
both reformats emit every cue number line and time-range line verbatim,
in order, never renumbering, and change only the dialogue payload by
wrapping it in a single font tag (the GUI version also passes separator
blank lines through; the CLI version emits its own separator). -/
theorem C7_reformat_preserves_cues :
    ∀ (size name : List Char) (cues : List Cue) (tailCue : Option Cue),
    (∀ c ∈ cues, cueWFb c = true) →
    (∀ c, tailCue = some c → cueWFb c = true) →
    beautify_srt_gui size name (renderDoc cues tailCue) =
      (guiOutLines size name cues tailCue).flatten ∧
    beautify_srt size name (renderDoc cues tailCue) =
      some (cliOutLines size name cues tailCue).flatten := by
  intro s n cues t h1 h2
  have hWF := renderDocLines_WF h1 h2
  constructor
  · show (beautifyGuiLines s n (readlines (renderDocLines cues t).flatten)).flatten = _
    rw [readlines_flatten hWF, beautifyGuiLines_renderDoc s n cues t h1 h2]
  · show (beautifyCliLines s n (readlines (renderDocLines cues t).flatten)).map
        List.flatten = _
    rw [readlines_flatten hWF, beautifyCliLines_renderDoc s n cues t h1 h2]
    rfl

theorem C7_witness :
    beautify_srt_gui "24".data "Arial".data (renderDoc [cueW] none) =
      (guiOutLines "24".data "Arial".data [cueW] none).flatten ∧
    beautify_srt "24".data "Arial".data (renderDoc [cueW] none) =
      some (cliOutLines "24".data "Arial".data [cueW] none).flatten :=
  C7_reformat_preserves_cues "24".data "Arial".data [cueW] none
    (by decide) (by intro c h; cases h)

/-- Claim C8, counterexample: the CLI `beautify_srt` does not pass a
non-cue-number line through verbatim — it drops it: on the input
`"x\nhello\n"`, whose lines are no pure integers, the output is empty
rather than the input. -/
theorem C8_counterexample :
    beautify_srt "24".data "Arial".data "x\nhello\n".data = some [] ∧
    "x\nhello\n".data ≠ ([] : List Char) := by
  constructor <;> decide

/-- Claim C8, amended: an input line that is not a pure decimal integer
where a cue-number line is expected never starts a cue in either
reformat; the GUI scanner passes it through verbatim, while the CLI
scanner omits it from the output. -/
theorem C8_non_integer_lines :
    ∀ (size name l : List Char) (rest : List (List Char)),
    isDigitLine l = false →
    beautifyCliLines size name (l :: rest) = beautifyCliLines size name rest ∧
    beautifyGuiLines size name (l :: rest) = l :: beautifyGuiLines size name rest :=
  fun size name _ rest h =>
    ⟨beautifyCliLines_other size name h rest, beautifyGuiLines_other size name h rest⟩

theorem C8_witness :
    beautifyCliLines "24".data "Arial".data ["x\n".data, "1\n".data, "t\n".data] =
      beautifyCliLines "24".data "Arial".data ["1\n".data, "t\n".data] ∧
    beautifyGuiLines "24".data "Arial".data ["x\n".data, "1\n".data, "t\n".data] =
      "x\n".data :: beautifyGuiLines "24".data "Arial".data ["1\n".data, "t\n".data] :=
  C8_non_integer_lines "24".data "Arial".data "x\n".data
    ["1\n".data, "t\n".data] (by decide)

/-- Claim C9: `remove_font_balise` is the identity on text containing
no opening or closing font tag, and on any interleaving of tag-free
dialogue segments with complete opening tags (any `'>'`- and
newline-free attribute content) and closing tags it removes exactly
the tags, altering no other character, line breaks included. -/
theorem C9_strip_markup :
    (∀ l : List Char, hasFontTag l = false → remove_font_balise l = l) ∧
    (∀ segs : List Seg, (∀ s ∈ segs, segWFb s = true) →
      remove_font_balise (renderSegs segs) = plainSegs segs) :=
  ⟨fun _ h => rfb_of_no_tags h, fun _ h => rfb_renderSegs h⟩

theorem C9_witness :
    remove_font_balise "line one\nline two\n".data = "line one\nline two\n".data ∧
    remove_font_balise (renderSegs
        [Seg.txt "Hello ".data, Seg.openT " color=\"red\"".data,
         Seg.txt "world\n".data, Seg.closeT, Seg.txt "bye\n".data]) =
      plainSegs
        [Seg.txt "Hello ".data, Seg.openT " color=\"red\"".data,
         Seg.txt "world\n".data, Seg.closeT, Seg.txt "bye\n".data] :=
  ⟨C9_strip_markup.1 _ (by decide), C9_strip_markup.2 _ (by decide)⟩

/-! ## Claims about progress, the pipeline runner and `delete_mkv` -/

/-- Claim C3, counterexample: a valid monitor trace — one parsed
progress line at media time 50 of a 100-second video, then a fallback
tick after more than 2 seconds of silence — yields the callback
sequence `[1/2, 7/400, 1]`, which is not non-decreasing: the fallback
fraction is capped at 0.95 but not at the running maximum, so it can
fall below previously reported parsed progress. -/
theorem C3_counterexample :
    validTrace 0 [.parsed 1 50, .stale (7/2)] = true ∧
    parsedTimes [.parsed 1 50, .stale (7/2)] = [50] ∧
    (50 : ℚ) < 100 ∧
    callbackFractions 100 0 [.parsed 1 50, .stale (7/2)] = [1/2, 7/400, 1] ∧
    ¬ (callbackFractions 100 0 [.parsed 1 50, .stale (7/2)]).Chain' (· ≤ ·) := by
  refine ⟨?_, by simp [parsedTimes], by norm_num, ?_, ?_⟩
  · norm_num [validTrace, validTraceFrom]
  · norm_num [callbackFractions, loopFractions, parsedFraction, fallbackFraction, min_def]
  · norm_num [callbackFractions, loopFractions, parsedFraction, fallbackFraction,
      min_def, List.chain'_cons]

/-- Claim C3, amended: every fraction the monitor loop passes to the
callback — parsed or fallback — is at most 0.95; the subsequence of
fractions derived from parsed timestamps is non-decreasing whenever the
timestamps are; and after the process exits the last value passed is
1.0.  The full interleaved sequence need not be non-decreasing, as a
fallback fraction may undercut earlier parsed progress. -/
theorem C3_progress_fractions :
    (∀ (duration startTime : ℚ) (evs : List ProgEvent),
      ∀ v ∈ loopFractions duration startTime evs, v ≤ 19/20) ∧
    (∀ (duration : ℚ) (ts : List ℚ), 0 < duration → ts.Chain' (· ≤ ·) →
      (ts.map (parsedFraction duration)).Chain' (· ≤ ·)) ∧
    (∀ (duration startTime : ℚ) (evs : List ProgEvent),
      (callbackFractions duration startTime evs).getLast? = some 1) := by
  refine ⟨?_, ?_, ?_⟩
  · intro D s evs
    induction evs with
    | nil => intro v hv; simp [loopFractions] at hv
    | cons e rest ih =>
      intro v hv
      cases e with
      | parsed w t =>
        simp only [loopFractions, List.mem_cons] at hv
        rcases hv with rfl | hv2
        · exact min_le_left _ _
        · exact ih v hv2
      | stale w =>
        simp only [loopFractions, List.mem_cons] at hv
        rcases hv with rfl | hv2
        · exact min_le_left _ _
        · exact ih v hv2
  · intro D ts hD hts
    exact List.chain'_map_of_chain' _
      (fun a b hab => min_le_min_left _ ((div_le_div_iff_of_pos_right hD).mpr hab)) hts
  · intro D s evs
    exact List.getLast?_concat _

theorem C3_witness :
    (([50, 60] : List ℚ).map (parsedFraction 100)).Chain' (· ≤ ·) ∧
    (callbackFractions 100 0 [.parsed 1 50]).getLast? = some 1 :=
  ⟨C3_progress_fractions.2.1 100 [50, 60] (by norm_num)
      (by norm_num [List.chain'_cons]),
   C3_progress_fractions.2.2 100 0 [.parsed 1 50]⟩

/-- Claim C6: a `KeyboardInterrupt` during the Encoding stage reaches
the cancellation handler of `process_file_gui`, which deletes the
temporary subtitle file and the partially-written output file before
returning; the reported outcome is the non-success `false` together
with the `"Conversion cancelled"` error log, distinct from every other
terminal report. -/
theorem C6_cancel_mid_encoding :
    ∀ e : RunEnv, e.hasSubs = true → e.extractRes = .ok → e.removeRes = .ok →
    e.beautifyRes = .ok → e.convertRes = .cancel →
    (process_file_gui e).success = false ∧
    (process_file_gui e).subtitleExists = false ∧
    (process_file_gui e).outputExists = false ∧
    (process_file_gui e).errorLogs = ["Conversion cancelled"] := by
  intro e h1 h2 h3 h4 h5
  simp [process_file_gui, h1, h2, h3, h4, h5]

theorem C6_witness :
    (process_file_gui runCancelEnv).success = false ∧
    (process_file_gui runCancelEnv).subtitleExists = false ∧
    (process_file_gui runCancelEnv).outputExists = false ∧
    (process_file_gui runCancelEnv).errorLogs = ["Conversion cancelled"] :=
  C6_cancel_mid_encoding runCancelEnv rfl rfl rfl rfl rfl

/-- Claim C10, counterexample: the CLI `delete_mkv` of utils.py, on an
existing `.mkv` file whose removal raises, leaves the filesystem
unchanged but terminates the process via `exit(1)` instead of
returning `False`. -/
theorem C10_counterexample :
    delete_mkv_cli ["a.mkv"] true "a.mkv" = (["a.mkv"], Except.error 1) ∧
    (delete_mkv_cli ["a.mkv"] true "a.mkv").2 ≠ Except.ok () := by
  refine ⟨rfl, ?_⟩
  intro h
  have h0 : (delete_mkv_cli ["a.mkv"] true "a.mkv").2 = Except.error 1 := rfl
  exact Except.noConfusion (h0.symm.trans h)

/-- Claim C10, amended: both `delete_mkv` variants remove the path only
when it is an existing file ending in `.mkv` or `.MKV` and removal does
not raise; on any other path the filesystem is unchanged.  The library
variant returns `False` in every non-removal case, exceptions included;
the CLI variant returns `None` on non-removal paths and terminates the
process when removal raises. -/
theorem C10_delete_mkv :
    ∀ (fs : List String) (removeRaises : Bool) (p : String),
    ((fs.contains p && endsWithMkv p) = false →
      delete_mkv fs removeRaises p = (fs, false) ∧
      delete_mkv_cli fs removeRaises p = (fs, Except.ok ())) ∧
    (removeRaises = true →
      delete_mkv fs removeRaises p = (fs, false)) ∧
    ((fs.contains p && endsWithMkv p) = true → removeRaises = false →
      delete_mkv fs removeRaises p = (fs.erase p, true) ∧
      delete_mkv_cli fs removeRaises p = (fs.erase p, Except.ok ())) := by
  intro fs r p
  refine ⟨?_, ?_, ?_⟩
  · intro h
    have h2 : ¬((fs.contains p && endsWithMkv p) = true) := by
      rw [h]; exact Bool.false_ne_true
    refine ⟨?_, ?_⟩
    · unfold delete_mkv; rw [if_neg h2]
    · unfold delete_mkv_cli; rw [if_neg h2]
  · intro hrt
    by_cases hc : (fs.contains p && endsWithMkv p) = true
    · unfold delete_mkv; rw [if_pos hc, if_pos hrt]
    · unfold delete_mkv; rw [if_neg hc]
  · intro h hr
    have hrf : ¬(r = true) := by simp [hr]
    refine ⟨?_, ?_⟩
    · unfold delete_mkv; rw [if_pos h, if_neg hrf]
    · unfold delete_mkv_cli; rw [if_pos h, if_neg hrf]

theorem C10_witness :
    delete_mkv ["notes.txt"] false "notes.txt" = (["notes.txt"], false) ∧
    delete_mkv ["a.mkv"] true "a.mkv" = (["a.mkv"], false) ∧
    delete_mkv ["a.mkv"] false "a.mkv" = ([], true) :=
  ⟨((C10_delete_mkv ["notes.txt"] false "notes.txt").1 (by decide)).1,
   (C10_delete_mkv ["a.mkv"] true "a.mkv").2.1 rfl,
   ((C10_delete_mkv ["a.mkv"] false "a.mkv").2.2 (by decide) rfl).1⟩

end MK4
